import Mathlib

/-! Verification of the project-scaffolding core of the rsk-dapp-cli repository.
The TypeScript sources are shallowly embedded: filesystem state is a list of
paths (each path a list of components), external fallible steps are represented
by records of their observable outcomes, and text manipulation is carried out
on explicit character lists. -/

namespace RskDappCli

/-- Native currency record of a network (src/utils/fileSystem.ts, NetworkConfig). -/
structure NativeCurrency where
  name : String
  symbol : String
  decimals : Nat
deriving DecidableEq, Repr

/-- NetworkConfig (src/utils/fileSystem.ts lines 141-151). -/
structure NetworkConfig where
  name : String
  chainId : Nat
  rpcUrl : String
  explorer : String
  nativeCurrency : NativeCurrency
deriving DecidableEq, Repr

/-- The mainnet entry of ROOTSTOCK_NETWORKS (src/utils/fileSystem.ts lines 154-164). -/
def rskMainnetConfig : NetworkConfig :=
  { name := "Rootstock Mainnet", chainId := 30,
    rpcUrl := "https://public-node.rsk.co",
    explorer := "https://explorer.rsk.co",
    nativeCurrency := { name := "Smart Bitcoin", symbol := "RBTC", decimals := 18 } }

/-- The testnet entry of ROOTSTOCK_NETWORKS (src/utils/fileSystem.ts lines 165-175). -/
def rskTestnetConfig : NetworkConfig :=
  { name := "Rootstock Testnet", chainId := 31,
    rpcUrl := "https://public-node.testnet.rsk.co",
    explorer := "https://explorer.testnet.rsk.co",
    nativeCurrency := { name := "Test Smart Bitcoin", symbol := "tRBTC", decimals := 18 } }

/-- The static table ROOTSTOCK_NETWORKS (src/utils/fileSystem.ts lines 153-176),
a string-keyed record modelled as an association list. -/
def ROOTSTOCK_NETWORKS : List (String × NetworkConfig) :=
  [("mainnet", rskMainnetConfig), ("testnet", rskTestnetConfig)]

/-- getNetworkConfig (src/utils/fileSystem.ts lines 178-180): a plain record
index with no membership check.  Indexing a JavaScript record with an absent
key yields undefined, modelled here as none; the function has no error path. -/
def getNetworkConfig (network : String) : Option NetworkConfig :=
  ROOTSTOCK_NETWORKS.lookup network

/-- A filesystem path, as its list of components. -/
abbrev FsPath := List String

/-- Filesystem contents: the list of paths of recorded entries.  A path exists
when some recorded entry has it as a prefix (a directory exists as soon as one
of its descendants does). -/
abbrev Fs := List FsPath

/-- fs.pathExists: the path itself or one of its descendants is recorded. -/
def pathExistsB (p : FsPath) (fs : Fs) : Bool :=
  fs.any (fun q => p.isPrefixOf q)

/-- fs.remove: recursively delete the subtree rooted at the given path. -/
def removeTree (p : FsPath) (fs : Fs) : Fs :=
  fs.filter (fun q => !(p.isPrefixOf q))

/-- Observable outcome of one orchestration step: the entries it created before
it either returned normally (err = none) or threw (err = some message). -/
structure StepEffect where
  created : List FsPath
  err : Option String
deriving Repr

/-- Outcomes of the seven steps run by createProject: directory creation,
template materialization, manifest merge, environment-file write, ignore-list
write, git initialization, dependency installation. -/
structure OrchestratorEffects where
  mkdirStep : StepEffect
  templateStep : StepEffect
  manifestStep : StepEffect
  envStep : StepEffect
  gitignoreStep : StepEffect
  gitStep : StepEffect
  installStep : StepEffect
deriving Repr

/-- CreateProjectOptions (src/utils/validation.ts lines 55-62). -/
structure CreateProjectOptions where
  name : String
  template : String
  projectPath : FsPath
  packageManager : String
  skipInstall : Bool
  skipGit : Bool
deriving Repr

/-- The DirectoryExists error message thrown by createProject
(src/utils/validation.ts line 69). -/
def directoryExistsError (name : String) : String :=
  "Directory " ++ name ++ " already exists. Please choose a different name."

/-- createProject (src/utils/validation.ts lines 64-147).  The precondition
check precedes the try block; each of the five fatal steps runs inside the try
block whose catch removes the target directory and rethrows; the git and
install steps have their own inner catch that downgrades failure to a warning,
so their errors never reach the outer catch. -/
def createProject (o : CreateProjectOptions) (eff : OrchestratorEffects) (fs0 : Fs) :
    Fs × Except String Unit :=
  if pathExistsB o.projectPath fs0 then
    (fs0, Except.error (directoryExistsError o.name))
  else
    let fs1 := fs0 ++ eff.mkdirStep.created
    match eff.mkdirStep.err with
    | some e => (removeTree o.projectPath fs1, Except.error e)
    | none =>
      let fs2 := fs1 ++ eff.templateStep.created
      match eff.templateStep.err with
      | some e => (removeTree o.projectPath fs2, Except.error e)
      | none =>
        let fs3 := fs2 ++ eff.manifestStep.created
        match eff.manifestStep.err with
        | some e => (removeTree o.projectPath fs3, Except.error e)
        | none =>
          let fs4 := fs3 ++ eff.envStep.created
          match eff.envStep.err with
          | some e => (removeTree o.projectPath fs4, Except.error e)
          | none =>
            let fs5 := fs4 ++ eff.gitignoreStep.created
            match eff.gitignoreStep.err with
            | some e => (removeTree o.projectPath fs5, Except.error e)
            | none =>
              let fs6 := if o.skipGit then fs5 else fs5 ++ eff.gitStep.created
              let fs7 := if o.skipInstall then fs6 else fs6 ++ eff.installStep.created
              (fs7, Except.ok ())

/-- The first error raised by a fatal step, in step order. -/
def firstFatalErr (eff : OrchestratorEffects) : Option String :=
  eff.mkdirStep.err <|> eff.templateStep.err <|> eff.manifestStep.err <|>
    eff.envStep.err <|> eff.gitignoreStep.err

/-- All entries created by the five fatal steps. -/
def fatalCreated (eff : OrchestratorEffects) : List FsPath :=
  eff.mkdirStep.created ++ eff.templateStep.created ++ eff.manifestStep.created ++
    eff.envStep.created ++ eff.gitignoreStep.created

/-- Every entry created by a fatal step lies below the target directory; this
holds of the source because each fatal step only writes under projectPath. -/
@[reducible] def FatalConfined (root : FsPath) (eff : OrchestratorEffects) : Prop :=
  ∀ p ∈ fatalCreated eff, root.isPrefixOf p = true

/-- A sample ProjectSpec used to exercise the orchestrator theorems. -/
def sampleCreateOptions : CreateProjectOptions :=
  { name := "my-dapp", template := "hardhat-react", projectPath := ["home", "my-dapp"],
    packageManager := "npm", skipInstall := false, skipGit := false }

/-- Step outcomes where template materialization is forced to fail after the
target directory was created. -/
def sampleFailingEffects : OrchestratorEffects :=
  { mkdirStep := { created := [["home", "my-dapp"]], err := none },
    templateStep := { created := [["home", "my-dapp", "contracts"]], err := some "TemplateIO" },
    manifestStep := { created := [], err := none },
    envStep := { created := [], err := none },
    gitignoreStep := { created := [], err := none },
    gitStep := { created := [], err := none },
    installStep := { created := [], err := none } }

/-- Step outcomes where every step succeeds without creating anything. -/
def sampleIdleEffects : OrchestratorEffects :=
  { mkdirStep := { created := [], err := none },
    templateStep := { created := [], err := none },
    manifestStep := { created := [], err := none },
    envStep := { created := [], err := none },
    gitignoreStep := { created := [], err := none },
    gitStep := { created := [], err := none },
    installStep := { created := [], err := none } }

/-- JavaScript ASCII whitespace, as matched by String.prototype.trim and the
regex class backslash-s (the non-ASCII space code points are irrelevant here). -/
def isJsWhitespace (c : Char) : Bool :=
  c == ' ' || c == '\t' || c == '\n' || c == '\r' || c == '\x0b' || c == '\x0c'

/-- Split a character list at every occurrence of a separator, like the
JavaScript String.prototype.split with a single-character separator. -/
def splitOnCharAux (sep : Char) : List Char → List Char → List (List Char)
  | [], acc => [acc.reverse]
  | c :: cs, acc =>
    if c == sep then acc.reverse :: splitOnCharAux sep cs []
    else splitOnCharAux sep cs (c :: acc)

/-- Split at a separator character. -/
def splitOnChar (sep : Char) (l : List Char) : List (List Char) :=
  splitOnCharAux sep l []

/-- The segment after the last slash: name.split(slash).slice(-1)[0]. -/
def lastSegment (l : List Char) : List Char :=
  (splitOnChar '/' l).getLastD []

/-- The blacklist of the validate-npm-package-name library. -/
def npmBlacklist : List String := ["node_modules", "favicon.ico"]

/-- Node core module names, as consulted by validate-npm-package-name. -/
def npmBuiltins : List String :=
  ["assert", "buffer", "child_process", "cluster", "console", "constants",
   "crypto", "dgram", "dns", "domain", "events", "fs", "http", "https",
   "module", "net", "os", "path", "punycode", "querystring", "readline",
   "repl", "stream", "string_decoder", "sys", "timers", "tls", "tty",
   "url", "util", "vm", "zlib"]

/-- Characters left untouched by encodeURIComponent. -/
def isUriUnreserved (c : Char) : Bool :=
  c.isAlpha || c.isDigit || c == '-' || c == '_' || c == '.' || c == '!' ||
    c == '~' || c == '*' || c == '\x27' || c == '(' || c == ')'

/-- encodeURIComponent(name) === name. -/
def encodeUriOk (l : List Char) : Bool := l.all isUriUnreserved

/-- The special characters flagged by validate-npm-package-name. -/
def npmSpecialChar (c : Char) : Bool :=
  c == '~' || c == '\x27' || c == '!' || c == '(' || c == ')' || c == '*'

/-- name.trim() !== name, restricted to ASCII whitespace. -/
def hasEdgeWhitespace (l : List Char) : Bool :=
  match l.head?, l.getLast? with
  | some a, some b => isJsWhitespace a || isJsWhitespace b
  | _, _ => false

/-- The scoped-package pattern of validate-npm-package-name: an at sign, a
nonempty slash-free user part, a slash, and a nonempty slash-free package
part.  Returns the two captured parts when the whole name matches. -/
def scopedNameParts (l : List Char) : Option (List Char × List Char) :=
  match l with
  | '@' :: rest =>
    match splitOnChar '/' rest with
    | [u, p] => if u.isEmpty || p.isEmpty then none else some (u, p)
    | _ => none
  | _ => none

/-- Whether the URL-friendly-characters error fires: the name has a character
escaped by encodeURIComponent and is not a scoped name both of whose parts
are unescaped. -/
def urlFriendlyViolated (l : List Char) : Bool :=
  if encodeUriOk l then false
  else
    match scopedNameParts l with
    | some (u, p) => !(encodeUriOk u && encodeUriOk p)
    | none => true

/-- ASCII lowercasing, as String.prototype.toLowerCase on ASCII input. -/
def toLowerAscii (l : List Char) : List Char := l.map Char.toLower

/-- Result shape of the validate-npm-package-name library. -/
structure NpmValidationResult where
  validForNewPackages : Bool
  validForOldPackages : Bool
  errors : List String
  warnings : List String
deriving DecidableEq, Repr

/-- Model of the external validate-npm-package-name library, the dependency
imported at src/utils/validation.ts line 1: the fatal checks (empty name,
leading period or underscore, edge whitespace, blacklisted names, URL-unsafe
characters) populate errors, the legacy checks (core module names, length
over 214, capital letters, special characters in the last path segment)
populate warnings, and validForNewPackages demands both lists empty. -/
def validateNpmPackageName (name : String) : NpmValidationResult :=
  let l := name.toList
  let errors :=
    (if l.isEmpty then ["name length must be greater than zero"] else []) ++
    (if l.head? == some '.' then ["name cannot start with a period"] else []) ++
    (if l.head? == some '_' then ["name cannot start with an underscore"] else []) ++
    (if hasEdgeWhitespace l then ["name cannot contain leading or trailing spaces"] else []) ++
    (npmBlacklist.filterMap fun b =>
      if toLowerAscii l == b.toList then some (b ++ " is a blacklisted name") else none)
  let warnings :=
    (npmBuiltins.filterMap fun b =>
      if toLowerAscii l == b.toList then some (b ++ " is a core module name") else none) ++
    (if l.length > 214 then ["name can no longer contain more than 214 characters"] else []) ++
    (if toLowerAscii l == l then [] else ["name can no longer contain capital letters"]) ++
    (if (lastSegment l).any npmSpecialChar then
      ["name can no longer contain special characters (\"~\x27!()*\")"] else [])
  let errors := errors ++
    (if urlFriendlyViolated l then ["name can only contain URL-friendly characters"] else [])
  { validForNewPackages := errors.isEmpty && warnings.isEmpty,
    validForOldPackages := errors.isEmpty,
    errors := errors, warnings := warnings }

/-- ValidationResult (src/utils/validation.ts lines 3-6). -/
structure ValidationResult where
  valid : Bool
  errors : List String
deriving DecidableEq, Repr

/-- The length-rule message of validateProjectName (line 32). -/
def lengthErrorMsg : String := "Project name must be 214 characters or less"

/-- The character-set-rule message of validateProjectName (line 39). -/
def charsetErrorMsg : String :=
  "Project name can only contain lowercase letters, numbers, hyphens, dots, and underscores"

/-- The character-set test of validateProjectName (line 36): one or more
characters, each a lowercase letter, digit, hyphen, period, or underscore. -/
def projectNameCharsetOk (name : String) : Bool :=
  !name.toList.isEmpty &&
    name.toList.all (fun c => c.isLower || c.isDigit || c == '-' || c == '.' || c == '_')

/-- validateProjectName (src/utils/validation.ts lines 8-47): delegate to the
npm naming rules, returning their accumulated errors and warnings on failure,
and only otherwise apply the length check and then the character-set check,
each returning its single message alone. -/
def validateProjectName (name : String) : ValidationResult :=
  let result := validateNpmPackageName name
  if !result.validForNewPackages then
    { valid := false, errors := result.errors ++ result.warnings }
  else if name.length > 214 then
    { valid := false, errors := [lengthErrorMsg] }
  else if !projectNameCharsetOk name then
    { valid := false, errors := [charsetErrorMsg] }
  else
    { valid := true, errors := [] }

/-- JSON values, as read and written by fs.readJson and fs.writeJson. -/
inductive Jval where
  | str (s : String)
  | num (n : Int)
  | bool (b : Bool)
  | arr (elems : List Jval)
  | obj (fields : List (String × Jval))

/-- A JSON object: an ordered association list of fields, as JavaScript
objects preserve insertion order and have no duplicate keys. -/
abbrev JObj := List (String × Jval)

/-- Field access obj[k]. -/
def objGet (o : JObj) (k : String) : Option Jval :=
  match o with
  | [] => none
  | (k2, v) :: rest => if k2 = k then some v else objGet rest k

/-- Key membership, k in obj. -/
def hasKey (o : JObj) (k : String) : Bool :=
  match o with
  | [] => false
  | (k2, _) :: rest => k2 == k || hasKey rest k

/-- Field assignment obj[k] = v: overwrite in place when the key is present
(JavaScript keeps the original insertion position), append otherwise. -/
def objSet (o : JObj) (k : String) (v : Jval) : JObj :=
  match o with
  | [] => [(k, v)]
  | (k2, v2) :: rest =>
    if k2 = k then (k2, v) :: rest else (k2, v2) :: objSet rest k v

/-- The value a spread merge assigns to a key of the first object: the second
object's value when it has the key, the original value otherwise. -/
def spreadVal (b : JObj) (x : String) (w : Jval) : Jval :=
  if hasKey b x then (objGet b x).getD w else w

/-- The JavaScript object-spread merge of two objects: keys of the first keep
their positions with the second object's value winning, and keys found only in
the second object are appended in its order. -/
def spreadMerge (a b : JObj) : JObj :=
  (a.map fun p => (p.1, spreadVal b p.1 p.2)) ++ b.filter fun p => !(hasKey a p.1)

/-- updatePackageJson (src/utils/fileSystem.ts lines 18-43), at the level of
the manifest contents: none models an absent package.json, in which case
nothing is written; otherwise the name, version and private fields are set,
and when extra dependencies are supplied the dependencies field becomes the
spread merge of the existing map (an absent field spreads as empty; the
manifest dependency field, when present, is an object) with the supplied one. -/
def updatePackageJson (file : Option JObj) (projectName : String)
    (additionalDeps : Option JObj) : Option JObj :=
  match file with
  | none => none
  | some packageJson =>
    let p1 := objSet packageJson "name" (Jval.str projectName)
    let p2 := objSet p1 "version" (Jval.str "0.1.0")
    let p3 := objSet p2 "private" (Jval.bool true)
    match additionalDeps with
    | none => some p3
    | some deps =>
      let existing : JObj :=
        match objGet p3 "dependencies" with
        | some (Jval.obj d) => d
        | _ => []
      some (objSet p3 "dependencies" (Jval.obj (spreadMerge existing deps)))

/-- The manifest of the merge example: a single dependencies field. -/
def sampleManifest : JObj := [("dependencies", Jval.obj [("a", Jval.str "1.0")])]

/-- The extra dependencies of the merge example. -/
def sampleDeps : JObj := [("b", Jval.str "2.0")]

/-- Substring containment, as String.prototype.includes: some suffix of the
text starts with the pattern. -/
def containsSub (pat : List Char) : List Char → Bool
  | [] => pat.isEmpty
  | c :: cs => pat.isPrefixOf (c :: cs) || containsSub pat cs

/-- The copyTemplate exclusion filter (src/utils/fileSystem.ts lines 7-14):
a visited entry is kept when its basename contains none of the four fragments
as a substring. -/
def shouldCopyName (basename : String) : Bool :=
  !(containsSub "node_modules".toList basename.toList) &&
    !(containsSub ".git".toList basename.toList) &&
    !(containsSub "dist".toList basename.toList) &&
    !(containsSub ".DS_Store".toList basename.toList)

/-- copyTemplate (src/utils/fileSystem.ts lines 5-16) on a template tree given
as relative paths: fs.copy consults the filter on every visited path and never
descends into a rejected directory, so an entry is copied exactly when every
component of its relative path passes the filter. -/
def copyTemplate (tree : List FsPath) : List FsPath :=
  tree.filter fun p => p.all shouldCopyName

/-- The contents written to the .env file by createEnvFile
(src/utils/fileSystem.ts lines 46-70), transcribed verbatim. -/
def envContent : String :=
  "# Rootstock Configuration\n# DO NOT COMMIT THIS FILE TO VERSION CONTROL\n\n# Private Keys (NEVER share these!)\nPRIVATE_KEY=your_private_key_here\n\n# Rootstock Testnet RPC URLs\nVITE_RSK_TESTNET_RPC_URL=https://public-node.testnet.rsk.co\nRSK_TESTNET_RPC_URL=https://public-node.testnet.rsk.co\n\n# Rootstock Mainnet RPC URLs (use with caution!)\nVITE_RSK_MAINNET_RPC_URL=https://public-node.rsk.co\nRSK_MAINNET_RPC_URL=https://public-node.rsk.co\n\n# Explorer URLs\nVITE_RSK_TESTNET_EXPLORER=https://explorer.testnet.rsk.co\nVITE_RSK_MAINNET_EXPLORER=https://explorer.rsk.co\n\n# Chain IDs\nVITE_RSK_TESTNET_CHAIN_ID=31\nVITE_RSK_MAINNET_CHAIN_ID=30\n\n# Contract Addresses (will be populated after deployment)\nVITE_CONTRACT_ADDRESS=\n"

/-- The lines of the .env contents. -/
def envLines : List (List Char) := splitOnChar '\n' envContent.toList

/-- One line under the regex replace of equals-dot-star with a bare equals
sign: the dot does not match a newline, so on each line everything from the
first equals sign to the end of the line collapses to the equals sign, and a
line without an equals sign is untouched. -/
def redactLine (l : List Char) : List Char :=
  if l.contains '=' then l.takeWhile (fun c => !(c == '=')) ++ ['='] else l

/-- Join lines back with newline separators. -/
def joinLines : List (List Char) → List Char
  | [] => []
  | [l] => l
  | l :: ls => l ++ '\n' :: joinLines ls

/-- The lines of the generated .env.example sibling. -/
def envExampleLines : List (List Char) := envLines.map redactLine

/-- The contents of .env.example: envContent.replace of every value. -/
def envExampleContent : String := String.mk (joinLines envExampleLines)

/-- createEnvFile (src/utils/fileSystem.ts lines 45-78): writes the secrets
file and its redacted sibling into the project directory; the template
argument is accepted but unused, as in the source. -/
def createEnvFile (projectPath : FsPath) (template : String) : List (FsPath × String) :=
  [(projectPath ++ [".env"], envContent),
   (projectPath ++ [".env.example"], envExampleContent)]

/-- A character allowed in an environment key: uppercase letter, digit, or
underscore (the shape of every key emitted by createEnvFile). -/
def isEnvKeyChar (c : Char) : Bool := c.isUpper || c.isDigit || c == '_'

/-- The text before the first equals sign of a line. -/
def keyOf (l : List Char) : List Char := l.takeWhile (fun c => !(c == '='))

/-- Whether a line has the KEY=value shape: an equals sign preceded by a
nonempty key of key characters. -/
def isKeyValueLine (l : List Char) : Bool :=
  l.contains '=' && !(keyOf l).isEmpty && (keyOf l).all isEnvKeyChar

/-- The two contract toolchains the deploy command recognizes. -/
inductive Toolchain where
  | hardhat
  | foundry
deriving DecidableEq, Repr

/-- The NoToolchainDetected error message (src/commands/deploy.ts line 56). -/
def noToolchainError : String :=
  "No Hardhat or Foundry configuration found. Make sure you are in a valid project."

/-- The toolchain-detection step of deployContract (src/commands/deploy.ts
lines 51-63): an error only when neither marker file exists, and the Hardhat
branch taken whenever its marker exists, regardless of the Foundry marker. -/
def detectToolchain (isHardhat isFoundry : Bool) : Except String Toolchain :=
  if !isHardhat && !isFoundry then Except.error noToolchainError
  else if isHardhat then Except.ok Toolchain.hardhat
  else Except.ok Toolchain.foundry

/-- The deployment command built by deployContract (src/commands/deploy.ts
lines 61-76) for the selected toolchain and network. -/
def deployCommand (t : Toolchain) (network : String) : String :=
  match t with
  | Toolchain.hardhat => "npx hardhat run scripts/deploy.js --network rsk" ++ network
  | Toolchain.foundry =>
    "cd contracts && forge script script/Deploy.s.sol --rpc-url " ++
      (if network == "mainnet" then "https://public-node.rsk.co"
       else "https://public-node.testnet.rsk.co") ++ " --broadcast -vvv"

/-- The toolchain phase of deployContract: detection followed by command
construction; in the error case no deployment command exists. -/
def toolchainPhase (isHardhat isFoundry : Bool) (network : String) : Except String String :=
  (detectToolchain isHardhat isFoundry).map (fun t => deployCommand t network)

/-- How a generated toolchain configuration states an RPC URL: either an
environment variable with a literal fallback (the JavaScript or-default
idiom of the Hardhat config) or a bare environment-variable reference (the
dollar-brace interpolation of the Foundry config). -/
inductive UrlSpec where
  | envOrDefault (envVar : String) (defaultUrl : String)
  | envRef (envVar : String)
deriving DecidableEq, Repr

/-- One network entry of a generated toolchain configuration. -/
structure ToolchainNetworkEntry where
  networkName : String
  chainId : Option Nat
  url : UrlSpec
deriving DecidableEq, Repr

/-- The two Rootstock network entries of the Hardhat config emitted by
createHardhatReactTemplate (src/utils/validation.ts lines 221-232). -/
def hardhatNetworkEntries : List ToolchainNetworkEntry :=
  [{ networkName := "rsktestnet", chainId := some 31,
     url := UrlSpec.envOrDefault "RSK_TESTNET_RPC_URL" "https://public-node.testnet.rsk.co" },
   { networkName := "rskmainnet", chainId := some 30,
     url := UrlSpec.envOrDefault "RSK_MAINNET_RPC_URL" "https://public-node.rsk.co" }]

/-- The two rpc_endpoints entries of the foundry.toml emitted by
createFoundryViteTemplate (src/utils/validation.ts lines 749-751): bare
environment-variable references with no literal URL. -/
def foundryRpcEndpoints : List ToolchainNetworkEntry :=
  [{ networkName := "rsktestnet", chainId := none,
     url := UrlSpec.envRef "RSK_TESTNET_RPC_URL" },
   { networkName := "rskmainnet", chainId := none,
     url := UrlSpec.envRef "RSK_MAINNET_RPC_URL" }]

/-- The toolchain-configuration network entries produced by
createTemplateStructure (src/utils/validation.ts lines 149-155) for each
template identifier; an unknown identifier produces nothing. -/
def templateToolchainNetworks : String → Option (List ToolchainNetworkEntry)
  | "hardhat-react" => some hardhatNetworkEntries
  | "foundry-vite" => some foundryRpcEndpoints
  | _ => none

/-- Resolve a URL specification against an environment: the or-default idiom
falls back on the literal when the variable is unset or empty (an empty
JavaScript string is falsy), the bare reference resolves to the variable. -/
def resolveUrl (env : String → Option String) : UrlSpec → Option String
  | UrlSpec.envOrDefault v d =>
    match env v with
    | some s => if s.isEmpty then some d else some s
    | none => some d
  | UrlSpec.envRef v => env v

/-- The URL literal written in the configuration text, when there is one. -/
def urlLiteralOf : UrlSpec → Option String
  | UrlSpec.envOrDefault _ d => some d
  | UrlSpec.envRef _ => none

/-- The value part of an environment line: everything after the first equals
sign. -/
def envValueOf (l : List Char) : List Char :=
  (l.dropWhile (fun c => !(c == '='))).drop 1

/-- The environment defined by the generated .env file: the value of the
first line whose key matches. -/
def envFileLookup (k : String) : Option String :=
  match envLines.find? (fun l => (k.toList ++ ['=']).isPrefixOf l) with
  | some l => some (String.mk (envValueOf l))
  | none => none

/-- A hexadecimal digit, the character class of the address pattern. -/
def isHexDigit (c : Char) : Bool :=
  c.isDigit || (decide ('a' ≤ c) && decide (c ≤ 'f')) || (decide ('A' ≤ c) && decide (c ≤ 'F'))

/-- Strip a pattern from the front of the text, comparing characters after
ASCII lowercasing (the case-insensitive flag of the regex). -/
def stripPrefixCI : List Char → List Char → Option (List Char)
  | [], l => some l
  | _ :: _, [] => none
  | p :: ps, c :: cs => if c.toLower == p.toLower then stripPrefixCI ps cs else none

/-- Take exactly n hexadecimal digits, returning them and the rest. -/
def takeHexDigits : Nat → List Char → Option (List Char × List Char)
  | 0, l => some ([], l)
  | _ + 1, [] => none
  | n + 1, c :: cs =>
    if isHexDigit c then
      match takeHexDigits n cs with
      | some (t, r) => some (c :: t, r)
      | none => none
    else none

/-- Drop the optional colon of the pattern. -/
def dropColon (l : List Char) : List Char :=
  match l with
  | ':' :: rest => rest
  | _ => l

/-- Match the trailing address of the pattern: a zero, an x of either case,
and exactly forty hexadecimal digits; the capture is returned exactly as
written in the text. -/
def addressAt (l4 : List Char) : Option (List Char) :=
  match l4 with
  | '0' :: x :: rest =>
    if x.toLower == 'x' then
      match takeHexDigits 40 rest with
      | some (hex, _) => some ('0' :: x :: hex)
      | none => none
    else none
  | _ => none

/-- Match the address pattern of deployContract (src/commands/deploy.ts line
87) at the start of the text: the word deployed, a space, the word to or at,
an optional colon, any whitespace, and a 40-hex-digit 0x address, all
case-insensitively; the returned capture is the address exactly as written. -/
def matchDeployedAt (l : List Char) : Option (List Char) :=
  (stripPrefixCI "deployed ".toList l).bind fun l1 =>
    (stripPrefixCI "to".toList l1 <|> stripPrefixCI "at".toList l1).bind fun l2 =>
      addressAt ((dropColon l2).dropWhile isJsWhitespace)

/-- The leftmost match of the address pattern in the text, as the anchorless
regex match finds it. -/
def scanForAddress : List Char → Option (List Char)
  | [] => none
  | c :: cs =>
    match matchDeployedAt (c :: cs) with
    | some a => some a
    | none => scanForAddress cs

/-- Address extraction over the subprocess output
(src/commands/deploy.ts lines 87-89). -/
def extractDeployedAddress (output : String) : Option String :=
  (scanForAddress output.toList).map String.mk

/-- The substring deployContract looks for with String.prototype.includes. -/
def contractAddressMarker : List Char := "VITE_CONTRACT_ADDRESS".toList

/-- The start of the line pattern deployContract replaces. -/
def contractAddressAssign : List Char := "VITE_CONTRACT_ADDRESS=".toList

/-- Replace, from the first position where the marker starts, everything to
the end of the line by the replacement; this is one line under the global
regex replace of the marker followed by dot-star (src/commands/deploy.ts
lines 101-104), whose dot stops at the line end. -/
def replaceFromMarker (marker repl : List Char) : List Char → List Char
  | [] => if marker.isPrefixOf [] then repl else []
  | c :: cs =>
    if marker.isPrefixOf (c :: cs) then repl
    else c :: replaceFromMarker marker repl cs

/-- One environment line after the contract-address substitution. -/
def updateEnvLine (addr : String) (l : List Char) : List Char :=
  replaceFromMarker contractAddressAssign ("VITE_CONTRACT_ADDRESS=" ++ addr).toList l

/-- The .env update of deployContract (src/commands/deploy.ts lines 100-110),
at line level: when no line contains the marker substring the assignment line
is appended, otherwise every line is run through the replacement. -/
def updateEnvWithAddress (lines : List (List Char)) (addr : String) : List (List Char) :=
  if lines.any (fun l => containsSub contractAddressMarker l) then
    lines.map (updateEnvLine addr)
  else
    lines ++ [("VITE_CONTRACT_ADDRESS=" ++ addr).toList]

end RskDappCli

namespace RskDappCli

theorem removeTree_append_of_confined (root : FsPath) (fs0 add : Fs)
    (h0 : pathExistsB root fs0 = false)
    (hadd : ∀ p ∈ add, root.isPrefixOf p = true) :
    removeTree root (fs0 ++ add) = fs0 := by
  have hfs0 : ∀ q ∈ fs0, ¬ (List.isPrefixOf root q = true) := by
    unfold pathExistsB at h0
    exact List.any_eq_false.mp h0
  unfold removeTree
  rw [List.filter_append]
  have h1 : List.filter (fun q => !(root.isPrefixOf q)) fs0 = fs0 := by
    apply List.filter_eq_self.mpr
    intro a ha
    cases hb : List.isPrefixOf root a with
    | false => simp [hb]
    | true => exact absurd hb (hfs0 a ha)
  have h2 : List.filter (fun q => !(root.isPrefixOf q)) add = [] := by
    apply List.filter_eq_nil_iff.mpr
    intro a ha
    simp [hadd a ha]
  rw [h1, h2, List.append_nil]

/-- Claim C1: for a ProjectSpec whose targetPath does not pre-exist, a failure
in any fatal step (directory creation, template materialization, manifest
merge, environment-file write, ignore-list write) leaves the filesystem in its
pre-call state, in particular the target directory does not exist afterward,
and the error propagates to the caller; when no fatal step fails the operation
succeeds and keeps everything it created, regardless of git or install
failures, which never trigger the removal. -/
theorem createProject_rollback_invariant
    (o : CreateProjectOptions) (eff : OrchestratorEffects) (fs0 : Fs)
    (hpre : pathExistsB o.projectPath fs0 = false)
    (hconf : FatalConfined o.projectPath eff) :
    (∀ e, firstFatalErr eff = some e →
       createProject o eff fs0 = (fs0, Except.error e) ∧
       pathExistsB o.projectPath (createProject o eff fs0).1 = false)
    ∧ (firstFatalErr eff = none →
       createProject o eff fs0 =
         (fs0 ++ fatalCreated eff ++ (if o.skipGit then [] else eff.gitStep.created)
              ++ (if o.skipInstall then [] else eff.installStep.created), Except.ok ())) := by
  have hc : ∀ add : Fs, (∀ p, p ∈ add → p ∈ fatalCreated eff) →
      ∀ p ∈ add, o.projectPath.isPrefixOf p = true := by
    intro add hsub p hp
    exact hconf p (hsub p hp)
  have hc1 : ∀ p ∈ eff.mkdirStep.created, o.projectPath.isPrefixOf p = true := by
    apply hc; intro p hp; simp [fatalCreated]; tauto
  have hc2 : ∀ p ∈ eff.mkdirStep.created ++ eff.templateStep.created,
      o.projectPath.isPrefixOf p = true := by
    apply hc; intro p hp; simp [fatalCreated] at hp ⊢; tauto
  have hc3 : ∀ p ∈ eff.mkdirStep.created ++ eff.templateStep.created ++
      eff.manifestStep.created, o.projectPath.isPrefixOf p = true := by
    apply hc; intro p hp; simp [fatalCreated] at hp ⊢; tauto
  have hc4 : ∀ p ∈ eff.mkdirStep.created ++ eff.templateStep.created ++
      eff.manifestStep.created ++ eff.envStep.created,
      o.projectPath.isPrefixOf p = true := by
    apply hc; intro p hp; simp [fatalCreated] at hp ⊢; tauto
  have hc5 : ∀ p ∈ eff.mkdirStep.created ++ eff.templateStep.created ++
      eff.manifestStep.created ++ eff.envStep.created ++ eff.gitignoreStep.created,
      o.projectPath.isPrefixOf p = true := by
    apply hc; intro p hp; simp [fatalCreated] at hp ⊢; tauto
  constructor
  · intro e he
    cases hm : eff.mkdirStep.err with
    | some e1 =>
      have he1 : e = e1 := by
        simp [firstFatalErr, hm] at he; exact he.symm
      subst he1
      have hres : createProject o eff fs0 = (fs0, Except.error e) := by
        simp only [createProject, hpre, Bool.false_eq_true, if_false, hm]
        rw [removeTree_append_of_confined _ _ _ hpre hc1]
      exact ⟨hres, by rw [hres]; exact hpre⟩
    | none =>
      cases ht : eff.templateStep.err with
      | some e2 =>
        have he2 : e = e2 := by
          simp [firstFatalErr, hm, ht] at he; exact he.symm
        subst he2
        have hres : createProject o eff fs0 = (fs0, Except.error e) := by
          simp only [createProject, hpre, Bool.false_eq_true, if_false, hm, ht]
          rw [List.append_assoc, removeTree_append_of_confined _ _ _ hpre]
          intro p hp
          exact hc2 p (by simpa using hp)
        exact ⟨hres, by rw [hres]; exact hpre⟩
      | none =>
        cases hman : eff.manifestStep.err with
        | some e3 =>
          have he3 : e = e3 := by
            simp [firstFatalErr, hm, ht, hman] at he; exact he.symm
          subst he3
          have hres : createProject o eff fs0 = (fs0, Except.error e) := by
            simp only [createProject, hpre, Bool.false_eq_true, if_false, hm, ht, hman]
            rw [List.append_assoc, List.append_assoc,
              removeTree_append_of_confined _ _ _ hpre]
            intro p hp
            exact hc3 p (by simpa [List.append_assoc] using hp)
          exact ⟨hres, by rw [hres]; exact hpre⟩
        | none =>
          cases henv : eff.envStep.err with
          | some e4 =>
            have he4 : e = e4 := by
              simp [firstFatalErr, hm, ht, hman, henv] at he; exact he.symm
            subst he4
            have hres : createProject o eff fs0 = (fs0, Except.error e) := by
              simp only [createProject, hpre, Bool.false_eq_true, if_false, hm, ht, hman, henv]
              rw [List.append_assoc, List.append_assoc, List.append_assoc,
                removeTree_append_of_confined _ _ _ hpre]
              intro p hp
              exact hc4 p (by simpa [List.append_assoc] using hp)
            exact ⟨hres, by rw [hres]; exact hpre⟩
          | none =>
            cases hgi : eff.gitignoreStep.err with
            | some e5 =>
              have he5 : e = e5 := by
                simp [firstFatalErr, hm, ht, hman, henv, hgi] at he; exact he.symm
              subst he5
              have hres : createProject o eff fs0 = (fs0, Except.error e) := by
                simp only [createProject, hpre, Bool.false_eq_true, if_false,
                  hm, ht, hman, henv, hgi]
                rw [List.append_assoc, List.append_assoc, List.append_assoc, List.append_assoc,
                  removeTree_append_of_confined _ _ _ hpre]
                intro p hp
                exact hc5 p (by simpa [List.append_assoc] using hp)
              exact ⟨hres, by rw [hres]; exact hpre⟩
            | none =>
              exfalso
              simp [firstFatalErr, hm, ht, hman, henv, hgi] at he
  · intro hok
    have hm : eff.mkdirStep.err = none := by
      cases h : eff.mkdirStep.err with
      | some e => simp [firstFatalErr, h] at hok
      | none => rfl
    have ht : eff.templateStep.err = none := by
      cases h : eff.templateStep.err with
      | some e => simp [firstFatalErr, hm, h] at hok
      | none => rfl
    have hman : eff.manifestStep.err = none := by
      cases h : eff.manifestStep.err with
      | some e => simp [firstFatalErr, hm, ht, h] at hok
      | none => rfl
    have henv : eff.envStep.err = none := by
      cases h : eff.envStep.err with
      | some e => simp [firstFatalErr, hm, ht, hman, h] at hok
      | none => rfl
    have hgi : eff.gitignoreStep.err = none := by
      cases h : eff.gitignoreStep.err with
      | some e => simp [firstFatalErr, hm, ht, hman, henv, h] at hok
      | none => rfl
    simp only [createProject, hpre, Bool.false_eq_true, if_false, hm, ht, hman, henv, hgi]
    cases hsg : o.skipGit <;> cases hsi : o.skipInstall <;>
      simp [hsg, hsi, fatalCreated, List.append_assoc]

/-- Witness for the rollback invariant: a forced template failure after the
target directory was created removes the directory and propagates the error. -/
theorem createProject_rollback_invariant_witness :
    createProject sampleCreateOptions sampleFailingEffects [["home"]] =
      ([["home"]], Except.error "TemplateIO") :=
  ((createProject_rollback_invariant sampleCreateOptions sampleFailingEffects [["home"]]
      (by decide) (by decide)).1 "TemplateIO" rfl).1

/-- Claim C2: when the targetPath already exists, createProject fails with the
DirectoryExists error and performs no filesystem changes; the result does not
depend on any of the step effects, so no other work is attempted. -/
theorem createProject_directoryExists
    (o : CreateProjectOptions) (eff : OrchestratorEffects) (fs0 : Fs)
    (hex : pathExistsB o.projectPath fs0 = true) :
    createProject o eff fs0 = (fs0, Except.error (directoryExistsError o.name)) := by
  simp [createProject, hex]

/-- Witness for the DirectoryExists precondition at a concrete input. -/
theorem createProject_directoryExists_witness :
    createProject sampleCreateOptions sampleIdleEffects [["home", "my-dapp", "README.md"]] =
      ([["home", "my-dapp", "README.md"]],
        Except.error "Directory my-dapp already exists. Please choose a different name.") :=
  createProject_directoryExists sampleCreateOptions sampleIdleEffects _ (by decide)

/-- Claim C4, counterexample: getNetworkConfig performs a bare record index, so
an identifier outside the registered set yields the absent value (undefined),
not an UnknownNetwork error; the function has no error path at all. -/
theorem getNetworkConfig_unknown_returns_none :
    getNetworkConfig "regtest" = none ∧ getNetworkConfig "mainnet" = some rskMainnetConfig :=
  ⟨rfl, rfl⟩

/-- Claim C4 as amended: for the two registered identifiers the lookup returns
the corresponding immutable NetworkConfig; for every other identifier it
returns the absent value (undefined) without raising any error. -/
theorem getNetworkConfig_total_on_registered (network : String) :
    (network = "mainnet" ∧ getNetworkConfig network = some rskMainnetConfig)
    ∨ (network = "testnet" ∧ getNetworkConfig network = some rskTestnetConfig)
    ∨ ((network == "mainnet") = false ∧ (network == "testnet") = false ∧
        getNetworkConfig network = none) := by
  by_cases h1 : network = "mainnet"
  · subst h1; exact Or.inl ⟨rfl, rfl⟩
  · by_cases h2 : network = "testnet"
    · subst h2; exact Or.inr (Or.inl ⟨rfl, rfl⟩)
    · refine Or.inr (Or.inr ⟨beq_eq_false_iff_ne.mpr h1, beq_eq_false_iff_ne.mpr h2, ?_⟩)
      simp [getNetworkConfig, ROOTSTOCK_NETWORKS, List.lookup,
        beq_eq_false_iff_ne.mpr h1, beq_eq_false_iff_ne.mpr h2]

/-- Claim C3, counterexample: on the input "ABC" both the npm naming rule and
the character-set rule are violated, yet validateProjectName returns only the
npm message; the character-set message is not accumulated, so the rules are
short-circuited rather than all applied. -/
theorem validateProjectName_shortCircuit_counterexample :
    validateProjectName "ABC" =
      { valid := false, errors := ["name can no longer contain capital letters"] } ∧
    projectNameCharsetOk "ABC" = false ∧
    ((validateProjectName "ABC").errors.contains charsetErrorMsg) = false := by
  refine ⟨by decide, by decide, by decide⟩

/-- Claim C3 as amended: validateProjectName applies its rule groups in order
with short-circuiting.  If the npm naming rules fail it returns exactly their
accumulated errors followed by their warnings; otherwise, if the length rule
fails it returns only the length message; otherwise, if the character-set rule
fails it returns only the character-set message; otherwise it returns
valid=true with an empty error list. -/
theorem validateProjectName_rule_cases (name : String) :
    ((validateNpmPackageName name).validForNewPackages = false ∧
      validateProjectName name =
        { valid := false,
          errors := (validateNpmPackageName name).errors ++
            (validateNpmPackageName name).warnings })
    ∨ ((validateNpmPackageName name).validForNewPackages = true ∧ name.length > 214 ∧
      validateProjectName name = { valid := false, errors := [lengthErrorMsg] })
    ∨ ((validateNpmPackageName name).validForNewPackages = true ∧ name.length ≤ 214 ∧
      projectNameCharsetOk name = false ∧
      validateProjectName name = { valid := false, errors := [charsetErrorMsg] })
    ∨ ((validateNpmPackageName name).validForNewPackages = true ∧ name.length ≤ 214 ∧
      projectNameCharsetOk name = true ∧
      validateProjectName name = { valid := true, errors := [] }) := by
  by_cases h1 : (validateNpmPackageName name).validForNewPackages = true
  · by_cases h2 : name.length > 214
    · exact Or.inr (Or.inl ⟨h1, h2, by simp [validateProjectName, h1, h2]⟩)
    · by_cases h3 : projectNameCharsetOk name = true
      · exact Or.inr (Or.inr (Or.inr ⟨h1, Nat.not_lt.mp h2, h3,
          by simp [validateProjectName, h1, h2, h3]⟩))
      · have h3f : projectNameCharsetOk name = false := by
          cases hb : projectNameCharsetOk name with
          | false => rfl
          | true => exact absurd hb h3
        exact Or.inr (Or.inr (Or.inl ⟨h1, Nat.not_lt.mp h2, h3f,
          by simp [validateProjectName, h1, h2, h3f]⟩))
  · have h1f : (validateNpmPackageName name).validForNewPackages = false := by
      cases hb : (validateNpmPackageName name).validForNewPackages with
      | false => rfl
      | true => exact absurd hb h1
    exact Or.inl ⟨h1f, by simp [validateProjectName, h1f]⟩

theorem objGet_objSet_self (o : JObj) (k : String) (v : Jval) :
    objGet (objSet o k v) k = some v := by
  induction o with
  | nil => simp [objSet, objGet]
  | cons hd t ih =>
    obtain ⟨k2, v2⟩ := hd
    by_cases hk : k2 = k
    · simp [objSet, objGet, hk]
    · simp [objSet, objGet, hk, ih]

theorem objGet_objSet_ne (o : JObj) (k q : String) (v : Jval) (h : q ≠ k) :
    objGet (objSet o k v) q = objGet o q := by
  induction o with
  | nil => simp [objSet, objGet, Ne.symm h]
  | cons hd t ih =>
    obtain ⟨k3, v3⟩ := hd
    by_cases hk : k3 = k
    · subst hk
      simp [objSet, objGet, Ne.symm h]
    · by_cases hk2 : k3 = q
      · subst hk2
        simp [objSet, objGet, h, hk]
      · simp [objSet, objGet, hk, hk2, ih]

theorem hasKey_iff_isSome (o : JObj) (k : String) :
    hasKey o k = true ↔ (objGet o k).isSome = true := by
  induction o with
  | nil => simp [hasKey, objGet]
  | cons hd t ih =>
    obtain ⟨k2, v2⟩ := hd
    by_cases hk : k2 = k
    · simp [hasKey, objGet, hk]
    · simp [hasKey, objGet, hk, ih]

theorem objGet_append (l1 l2 : JObj) (k : String) :
    objGet (l1 ++ l2) k = (objGet l1 k <|> objGet l2 k) := by
  induction l1 with
  | nil => simp [objGet]
  | cons hd t ih =>
    obtain ⟨k2, v2⟩ := hd
    by_cases hk : k2 = k
    · simp [objGet, hk]
    · simp [objGet, hk, ih]

theorem objGet_map_spreadVal (a b : JObj) (k : String) :
    objGet (a.map fun p => (p.1, spreadVal b p.1 p.2)) k =
      (objGet a k).map (spreadVal b k) := by
  induction a with
  | nil => simp [objGet]
  | cons hd t ih =>
    obtain ⟨k2, v2⟩ := hd
    by_cases hk : k2 = k
    · subst hk; simp [objGet]
    · simp [objGet, hk, ih]

theorem objGet_filter_notHasKey_of_false (a b : JObj) (k : String)
    (ha : hasKey a k = false) :
    objGet (b.filter fun p => !(hasKey a p.1)) k = objGet b k := by
  induction b with
  | nil => simp [objGet]
  | cons hd t ih =>
    obtain ⟨k2, v2⟩ := hd
    by_cases hk : k2 = k
    · subst hk; simp [List.filter_cons, ha, objGet]
    · cases hq2 : hasKey a k2 with
      | true => simp [List.filter_cons, hq2, objGet, hk, ih]
      | false => simp [List.filter_cons, hq2, objGet, hk, ih]

theorem objGet_filter_notHasKey_of_true (a b : JObj) (k : String)
    (ha : hasKey a k = true) :
    objGet (b.filter fun p => !(hasKey a p.1)) k = none := by
  induction b with
  | nil => simp [objGet]
  | cons hd t ih =>
    obtain ⟨k2, v2⟩ := hd
    cases hq2 : hasKey a k2 with
    | true => simp [List.filter_cons, hq2, ih]
    | false =>
      have hk : ¬ (k2 = k) := fun he => by
        rw [he, ha] at hq2
        exact Bool.false_ne_true hq2.symm
      simp [List.filter_cons, hq2, objGet, hk, ih]

theorem objGet_spreadMerge_right (a b : JObj) (k : String) (hb : hasKey b k = true) :
    objGet (spreadMerge a b) k = objGet b k := by
  unfold spreadMerge
  rw [objGet_append, objGet_map_spreadVal]
  cases ha : objGet a k with
  | some v =>
    have hbs : (objGet b k).isSome = true := (hasKey_iff_isSome b k).mp hb
    cases hob : objGet b k with
    | some w => simp [spreadVal, hb, hob]
    | none => rw [hob] at hbs; simp at hbs
  | none =>
    have haf : hasKey a k = false := by
      cases h : hasKey a k with
      | false => rfl
      | true =>
        have := (hasKey_iff_isSome a k).mp h
        rw [ha] at this; simp at this
    simp only [Option.map_none', Option.none_orElse]
    exact objGet_filter_notHasKey_of_false a b k haf

theorem objGet_spreadMerge_left (a b : JObj) (k : String) (hb : hasKey b k = false) :
    objGet (spreadMerge a b) k = objGet a k := by
  unfold spreadMerge
  rw [objGet_append, objGet_map_spreadVal]
  have hbn : objGet b k = none := by
    cases h : objGet b k with
    | none => rfl
    | some w =>
      have : hasKey b k = true := (hasKey_iff_isSome b k).mpr (by simp [h])
      rw [hb] at this; exact absurd this Bool.false_ne_true
  cases ha : objGet a k with
  | some v => simp [spreadVal, hb]
  | none =>
    cases haf : hasKey a k with
    | true =>
      simp only [Option.map_none', Option.none_orElse]
      rw [objGet_filter_notHasKey_of_true a b k haf]
    | false =>
      simp only [Option.map_none', Option.none_orElse]
      rw [objGet_filter_notHasKey_of_false a b k haf, hbn]

/-- Claim C5: updatePackageJson is a no-op on a missing manifest (no file is
created); on an existing manifest it sets name, resets version to 0.1.0, sets
private to true, shallow-merges the caller-supplied dependencies into the
existing dependency map with caller entries winning on key collision, and
preserves every other existing field unchanged. -/
theorem updatePackageJson_merge_spec (m deps d0 : JObj) (n : String)
    (hdeps : objGet m "dependencies" = some (Jval.obj d0)) :
    updatePackageJson none n (some deps) = none ∧
    ∃ r, updatePackageJson (some m) n (some deps) = some r ∧
      objGet r "name" = some (Jval.str n) ∧
      objGet r "version" = some (Jval.str "0.1.0") ∧
      objGet r "private" = some (Jval.bool true) ∧
      objGet r "dependencies" = some (Jval.obj (spreadMerge d0 deps)) ∧
      (∀ k, hasKey deps k = true → objGet (spreadMerge d0 deps) k = objGet deps k) ∧
      (∀ k, hasKey deps k = false → objGet (spreadMerge d0 deps) k = objGet d0 k) ∧
      (∀ k, k ≠ "name" → k ≠ "version" → k ≠ "private" → k ≠ "dependencies" →
        objGet r k = objGet m k) := by
  refine ⟨rfl, ?_⟩
  have hp3deps :
      objGet (objSet (objSet (objSet m "name" (Jval.str n)) "version" (Jval.str "0.1.0"))
        "private" (Jval.bool true)) "dependencies" = some (Jval.obj d0) := by
    rw [objGet_objSet_ne _ _ _ _ (by decide), objGet_objSet_ne _ _ _ _ (by decide),
      objGet_objSet_ne _ _ _ _ (by decide), hdeps]
  refine ⟨objSet (objSet (objSet (objSet m "name" (Jval.str n)) "version" (Jval.str "0.1.0"))
    "private" (Jval.bool true)) "dependencies" (Jval.obj (spreadMerge d0 deps)),
    ?_, ?_, ?_, ?_, ?_, ?_, ?_, ?_⟩
  · simp only [updatePackageJson]
    rw [hp3deps]
  · rw [objGet_objSet_ne _ _ _ _ (by decide), objGet_objSet_ne _ _ _ _ (by decide),
      objGet_objSet_ne _ _ _ _ (by decide), objGet_objSet_self]
  · rw [objGet_objSet_ne _ _ _ _ (by decide), objGet_objSet_ne _ _ _ _ (by decide),
      objGet_objSet_self]
  · rw [objGet_objSet_ne _ _ _ _ (by decide), objGet_objSet_self]
  · rw [objGet_objSet_self]
  · intro k hk
    exact objGet_spreadMerge_right d0 deps k hk
  · intro k hk
    exact objGet_spreadMerge_left d0 deps k hk
  · intro k h1 h2 h3 h4
    rw [objGet_objSet_ne _ _ _ _ h4, objGet_objSet_ne _ _ _ _ h3,
      objGet_objSet_ne _ _ _ _ h2, objGet_objSet_ne _ _ _ _ h1]

/-- Witness for the manifest merge: the specification example with an existing
dependency map and one caller-supplied dependency. -/
theorem updatePackageJson_merge_spec_witness :
    objGet sampleManifest "dependencies" = some (Jval.obj [("a", Jval.str "1.0")]) ∧
    (updatePackageJson none "foo" (some sampleDeps) = none ∧
    ∃ r, updatePackageJson (some sampleManifest) "foo" (some sampleDeps) = some r ∧
      objGet r "name" = some (Jval.str "foo") ∧
      objGet r "version" = some (Jval.str "0.1.0") ∧
      objGet r "private" = some (Jval.bool true) ∧
      objGet r "dependencies" =
        some (Jval.obj (spreadMerge [("a", Jval.str "1.0")] sampleDeps)) ∧
      (∀ k, hasKey sampleDeps k = true →
        objGet (spreadMerge [("a", Jval.str "1.0")] sampleDeps) k = objGet sampleDeps k) ∧
      (∀ k, hasKey sampleDeps k = false →
        objGet (spreadMerge [("a", Jval.str "1.0")] sampleDeps) k =
          objGet [("a", Jval.str "1.0")] k) ∧
      (∀ k, k ≠ "name" → k ≠ "version" → k ≠ "private" → k ≠ "dependencies" →
        objGet r k = objGet sampleManifest k)) :=
  ⟨rfl, updatePackageJson_merge_spec sampleManifest sampleDeps [("a", Jval.str "1.0")] "foo" rfl⟩

/-- Claim C10: the copy filter rejects a basename exactly when it contains one
of the four fragments as a substring, hence any entry one of whose path
components merely contains a fragment is omitted from the copied tree; in
particular .gitignore and distribution are rejected names. -/
theorem copyTemplate_substring_exclusion :
    (∀ c : String, shouldCopyName c = false ↔
      (containsSub "node_modules".toList c.toList = true ∨
       containsSub ".git".toList c.toList = true ∨
       containsSub "dist".toList c.toList = true ∨
       containsSub ".DS_Store".toList c.toList = true))
    ∧ (∀ (tree : List FsPath) (p : FsPath), p ∈ tree →
        (∃ c ∈ p, shouldCopyName c = false) → p ∉ copyTemplate tree)
    ∧ shouldCopyName ".gitignore" = false ∧ shouldCopyName "distribution" = false := by
  refine ⟨?_, ?_, by decide, by decide⟩
  · intro c
    constructor
    · intro h
      by_contra hc
      push_neg at hc
      obtain ⟨hc1, hc2, hc3, hc4⟩ := hc
      have e1 : containsSub "node_modules".toList c.toList = false := by
        cases hx : containsSub "node_modules".toList c.toList
        · rfl
        · exact absurd hx hc1
      have e2 : containsSub ".git".toList c.toList = false := by
        cases hx : containsSub ".git".toList c.toList
        · rfl
        · exact absurd hx hc2
      have e3 : containsSub "dist".toList c.toList = false := by
        cases hx : containsSub "dist".toList c.toList
        · rfl
        · exact absurd hx hc3
      have e4 : containsSub ".DS_Store".toList c.toList = false := by
        cases hx : containsSub ".DS_Store".toList c.toList
        · rfl
        · exact absurd hx hc4
      unfold shouldCopyName at h
      rw [e1, e2, e3, e4] at h
      simp at h
    · rintro (hx | hx | hx | hx) <;> (unfold shouldCopyName; rw [hx]; simp)
  · intro tree p hp hex hmem
    rw [copyTemplate, List.mem_filter] at hmem
    obtain ⟨c, hc, hcf⟩ := hex
    have := List.all_eq_true.mp hmem.2 c hc
    rw [hcf] at this
    exact Bool.false_ne_true this

/-- Witness for the copy-filter exclusion: a .gitignore entry present in the
template tree is omitted from the copy. -/
theorem copyTemplate_substring_exclusion_witness :
    [".gitignore"] ∉ copyTemplate [["contracts"], [".gitignore"]] :=
  copyTemplate_substring_exclusion.2.1 [["contracts"], [".gitignore"]] [".gitignore"]
    (by decide) ⟨".gitignore", by decide, by decide⟩

/-- Claim C6, counterexample: the first line of the secrets file emitted by
createEnvFile is a comment, not of the KEY=value form, so not every line of
the file has that form. -/
theorem createEnvFile_comment_line_counterexample :
    (createEnvFile [] "hardhat-react").head? = some ([".env"], envContent) ∧
    envLines.head? = some "# Rootstock Configuration".toList ∧
    isKeyValueLine "# Rootstock Configuration".toList = false := by
  refine ⟨rfl, by decide, by decide⟩

/-- Claim C6 as amended: createEnvFile emits the secrets file and a redacted
sibling; every line of the secrets file is blank, a comment, or of the form
KEY=value; the sibling has the same lines in the same order with each key
preserved, every KEY=value line reduced to KEY=, and every other line
unchanged. -/
theorem createEnvFile_redaction_spec :
    createEnvFile [] "hardhat-react" =
      [([".env"], envContent), ([".env.example"], envExampleContent)] ∧
    (envLines.all fun l =>
      l.isEmpty || l.head? == some '#' || isKeyValueLine l) = true ∧
    envExampleLines = envLines.map redactLine ∧
    envExampleLines.length = envLines.length ∧
    ((envLines.zip envExampleLines).all fun p =>
      keyOf p.1 == keyOf p.2 &&
        (if isKeyValueLine p.1 then p.2 == keyOf p.1 ++ ['='] else p.2 == p.1)) = true := by
  refine ⟨rfl, by decide, rfl, by decide, by decide⟩

/-- Claim C8, counterexample: a working tree containing both toolchain markers
is not rejected; detection succeeds and the Hardhat deployment command is
built, so only the neither-marker case fails. -/
theorem detectToolchain_both_markers_counterexample :
    detectToolchain true true = Except.ok Toolchain.hardhat ∧
    toolchainPhase true true "testnet" =
      Except.ok "npx hardhat run scripts/deploy.js --network rsktestnet" :=
  ⟨rfl, rfl⟩

/-- Claim C8 as amended: deployContract requires at least one of the two
toolchain markers, failing with NoToolchainDetected exactly when neither is
present and no deployment command is built in that case; when both markers
are present the Hardhat marker takes precedence. -/
theorem detectToolchain_cases (isHardhat isFoundry : Bool) (network : String) :
    (isHardhat = false ∧ isFoundry = false ∧
      toolchainPhase isHardhat isFoundry network = Except.error noToolchainError)
    ∨ (isHardhat = true ∧
      toolchainPhase isHardhat isFoundry network =
        Except.ok (deployCommand Toolchain.hardhat network))
    ∨ (isHardhat = false ∧ isFoundry = true ∧
      toolchainPhase isHardhat isFoundry network =
        Except.ok (deployCommand Toolchain.foundry network)) := by
  cases isHardhat <;> cases isFoundry <;>
    simp [toolchainPhase, detectToolchain, Except.map]

/-- Claim C9, counterexample: the Foundry configuration states its two network
endpoints as bare environment-variable references carrying no URL literal, so
neither entry is textually equal to the registry URL, and under an empty
environment the reference resolves to nothing rather than the registry URL. -/
theorem foundry_config_url_counterexample :
    templateToolchainNetworks "foundry-vite" = some foundryRpcEndpoints ∧
    (foundryRpcEndpoints.map fun e => urlLiteralOf e.url) = [none, none] ∧
    getNetworkConfig "testnet" = some rskTestnetConfig ∧
    resolveUrl (fun _ => none) (UrlSpec.envRef "RSK_TESTNET_RPC_URL") = none := by
  refine ⟨rfl, rfl, rfl, rfl⟩

/-- Claim C9 as amended: the Hardhat configuration's two network entries carry
the registry RPC URLs as their fallback literals, so they resolve to exactly
the registry URLs whenever the variables are unset; the Foundry entries are
environment references that resolve to exactly the registry URLs under the
variable assignments of the generated environment file, whose values equal
the registry URLs. -/
theorem template_config_rpc_urls :
    templateToolchainNetworks "hardhat-react" = some hardhatNetworkEntries ∧
    templateToolchainNetworks "foundry-vite" = some foundryRpcEndpoints ∧
    (hardhatNetworkEntries.map fun e => resolveUrl (fun _ => none) e.url) =
      [some rskTestnetConfig.rpcUrl, some rskMainnetConfig.rpcUrl] ∧
    (hardhatNetworkEntries.map fun e => resolveUrl envFileLookup e.url) =
      [some rskTestnetConfig.rpcUrl, some rskMainnetConfig.rpcUrl] ∧
    (foundryRpcEndpoints.map fun e => resolveUrl envFileLookup e.url) =
      [some rskTestnetConfig.rpcUrl, some rskMainnetConfig.rpcUrl] := by
  refine ⟨rfl, rfl, by decide, by decide, by decide⟩

theorem stripPrefixCI_drop (pat : List Char) : ∀ l r : List Char,
    stripPrefixCI pat l = some r → r = l.drop pat.length := by
  induction pat with
  | nil =>
    intro l r h
    simp [stripPrefixCI] at h
    simp [h]
  | cons p ps ih =>
    intro l r h
    cases l with
    | nil => simp [stripPrefixCI] at h
    | cons c cs =>
      unfold stripPrefixCI at h
      by_cases hc : (c.toLower == p.toLower) = true
      · rw [if_pos hc] at h
        simpa using ih cs r h
      · rw [if_neg hc] at h
        exact absurd h (by simp)

theorem takeHexDigits_spec (n : Nat) : ∀ l t r : List Char,
    takeHexDigits n l = some (t, r) → t = l.take n ∧ n ≤ l.length := by
  induction n with
  | zero =>
    intro l t r h
    simp [takeHexDigits] at h
    simp [h.1]
  | succ n ih =>
    intro l t r h
    cases l with
    | nil => simp [takeHexDigits] at h
    | cons c cs =>
      unfold takeHexDigits at h
      by_cases hc : isHexDigit c = true
      · rw [if_pos hc] at h
        cases htk : takeHexDigits n cs with
        | none => rw [htk] at h; exact absurd h (by simp)
        | some pr =>
          obtain ⟨t2, r2⟩ := pr
          rw [htk] at h
          simp at h
          obtain ⟨ht, -⟩ := h
          obtain ⟨ht2, hle⟩ := ih cs t2 r2 htk
          constructor
          · rw [← ht, ht2]; rfl
          · simpa using Nat.succ_le_succ hle
      · rw [if_neg hc] at h
        exact absurd h (by simp)

theorem dropWhile_eq_drop (p : Char → Bool) (l : List Char) :
    ∃ k, l.dropWhile p = l.drop k := by
  induction l with
  | nil => exact ⟨0, rfl⟩
  | cons c cs ih =>
    cases hpc : p c with
    | true =>
      obtain ⟨k, hk⟩ := ih
      exact ⟨k + 1, by simp [List.dropWhile_cons, hpc, hk]⟩
    | false => exact ⟨0, by simp [List.dropWhile_cons, hpc]⟩

theorem dropColon_drop (l : List Char) : ∃ j, dropColon l = l.drop j := by
  unfold dropColon
  split
  · exact ⟨1, rfl⟩
  · exact ⟨0, rfl⟩

theorem addressAt_spec (l4 a : List Char) (h : addressAt l4 = some a) :
    a.length = 42 ∧ a = l4.take 42 := by
  unfold addressAt at h
  split at h
  case h_1 x rest =>
    by_cases hx : (x.toLower == 'x') = true
    · rw [if_pos hx] at h
      cases htk : takeHexDigits 40 rest with
      | none => rw [htk] at h; exact absurd h (by simp)
      | some pr =>
        obtain ⟨hex, r2⟩ := pr
        rw [htk] at h
        simp at h
        obtain ⟨ht, hle⟩ := takeHexDigits_spec 40 rest hex r2 htk
        have hlen : hex.length = 40 := by
          rw [ht, List.length_take]
          exact Nat.min_eq_left hle
        constructor
        · rw [← h]; simp [hlen]
        · rw [← h, ht]; rfl
    · rw [if_neg hx] at h
      exact absurd h (by simp)
  case h_2 =>
    exact absurd h (by simp)

theorem matchDeployedAt_slice (l a : List Char) (h : matchDeployedAt l = some a) :
    a.length = 42 ∧ ∃ i, a = (l.drop i).take 42 := by
  unfold matchDeployedAt at h
  cases h1 : stripPrefixCI "deployed ".toList l with
  | none => rw [h1] at h; simp at h
  | some l1 =>
    rw [h1] at h
    simp only [Option.some_bind] at h
    cases h2alt : (stripPrefixCI "to".toList l1 <|> stripPrefixCI "at".toList l1) with
    | none => rw [h2alt] at h; simp at h
    | some l2 =>
      rw [h2alt] at h
      simp only [Option.some_bind] at h
      obtain ⟨hlen, heq⟩ := addressAt_spec _ _ h
      have hl1 : l1 = l.drop ("deployed ".toList.length) := stripPrefixCI_drop _ _ _ h1
      have hl2 : l2 = l1.drop 2 := by
        cases hx : stripPrefixCI "to".toList l1 with
        | some v =>
          rw [hx] at h2alt
          simp at h2alt
          rw [← h2alt]
          exact stripPrefixCI_drop _ _ _ hx
        | none =>
          rw [hx] at h2alt
          simp at h2alt
          exact stripPrefixCI_drop _ _ _ h2alt
      obtain ⟨j, hj⟩ := dropColon_drop l2
      obtain ⟨k, hk⟩ := dropWhile_eq_drop isJsWhitespace (dropColon l2)
      refine ⟨hlen, ⟨"deployed ".toList.length + (2 + (j + k)), ?_⟩⟩
      rw [heq, hk, hj, hl2, hl1, List.drop_drop, List.drop_drop, List.drop_drop]

theorem scanForAddress_slice (l : List Char) : ∀ a, scanForAddress l = some a →
    a.length = 42 ∧ ∃ i, a = (l.drop i).take 42 := by
  induction l with
  | nil => intro a h; simp [scanForAddress] at h
  | cons c cs ih =>
    intro a h
    unfold scanForAddress at h
    cases hm : matchDeployedAt (c :: cs) with
    | some b =>
      rw [hm] at h
      simp at h
      rw [← h]
      exact matchDeployedAt_slice _ _ hm
    | none =>
      rw [hm] at h
      obtain ⟨hlen, i, hi⟩ := ih a h
      exact ⟨hlen, i + 1, by rw [hi]; rfl⟩

theorem containsSub_of_isPrefixOf (pat l : List Char) (h : pat.isPrefixOf l = true) :
    containsSub pat l = true := by
  cases l with
  | nil =>
    cases pat with
    | nil => rfl
    | cons p ps => simp [List.isPrefixOf] at h
  | cons c cs =>
    unfold containsSub
    rw [h]
    rfl

theorem isPrefixOf_eq_true_iff (l1 : List Char) : ∀ l2 : List Char,
    l1.isPrefixOf l2 = true ↔ l1 <+: l2 := by
  induction l1 with
  | nil => intro l2; simp
  | cons a as ih =>
    intro l2
    cases l2 with
    | nil => simp
    | cons b bs =>
      rw [List.isPrefixOf_cons₂, Bool.and_eq_true, beq_iff_eq, List.cons_prefix_cons, ih bs]

theorem isPrefixOf_of_prefix_of_isPrefixOf (p1 p2 l : List Char)
    (h1 : p1 <+: p2) (h2 : p2.isPrefixOf l = true) : p1.isPrefixOf l = true := by
  rw [isPrefixOf_eq_true_iff] at h2 ⊢
  exact h1.trans h2

theorem replaceFromMarker_of_prefix (marker repl l : List Char)
    (h : marker.isPrefixOf l = true) :
    replaceFromMarker marker repl l = repl := by
  cases l with
  | nil => simp [replaceFromMarker, h]
  | cons c cs => simp [replaceFromMarker, h]

theorem replaceFromMarker_of_not_contains (l repl : List Char)
    (h : containsSub contractAddressMarker l = false) :
    replaceFromMarker contractAddressAssign repl l = l := by
  induction l with
  | nil =>
    have : contractAddressAssign.isPrefixOf ([] : List Char) = false := by decide
    simp [replaceFromMarker, this]
  | cons c cs ih =>
    have hnp : contractAddressAssign.isPrefixOf (c :: cs) = false := by
      cases hx : contractAddressAssign.isPrefixOf (c :: cs) with
      | false => rfl
      | true =>
        have hm : contractAddressMarker.isPrefixOf (c :: cs) = true :=
          isPrefixOf_of_prefix_of_isPrefixOf contractAddressMarker contractAddressAssign _
            (by decide) hx
        have := containsSub_of_isPrefixOf _ _ hm
        rw [h] at this
        exact absurd this (by simp)
    have htail : containsSub contractAddressMarker cs = false := by
      unfold containsSub at h
      exact (Bool.or_eq_false_iff.mp h).2
    simp [replaceFromMarker, hnp, ih htail]

/-- Claim C7: deployContract scans the subprocess output with the
case-insensitive deployed to-or-at address pattern; an extracted address is a
verbatim 42-character slice of the output (its casing preserved), and it is
written into the secrets file by replacing every line carrying the
contract-address assignment in place when the marker is present, or by
appending a fresh assignment line when the marker is absent. -/
theorem deploy_address_extraction_and_persistence :
    (extractDeployedAddress
        "RootstockGreeter deployed to: 0xAbCdEf0123456789aBcDeF0123456789AbCdEf01" =
      some "0xAbCdEf0123456789aBcDeF0123456789AbCdEf01") ∧
    (∀ output addr, extractDeployedAddress output = some addr →
      addr.toList.length = 42 ∧ ∃ i, addr.toList = (output.toList.drop i).take 42) ∧
    (∀ lines addr,
      (lines.all fun l => !(containsSub contractAddressMarker l)) = true →
      updateEnvWithAddress lines addr =
        lines ++ [("VITE_CONTRACT_ADDRESS=" ++ addr).toList]) ∧
    (∀ lines addr,
      (lines.any fun l => containsSub contractAddressMarker l) = true →
      updateEnvWithAddress lines addr = lines.map (updateEnvLine addr)) ∧
    (∀ old addr, updateEnvLine addr (contractAddressAssign ++ old) =
      ("VITE_CONTRACT_ADDRESS=" ++ addr).toList) ∧
    (∀ l addr, containsSub contractAddressMarker l = false → updateEnvLine addr l = l) := by
  refine ⟨by decide, ?_, ?_, ?_, ?_, ?_⟩
  · intro output addr h
    unfold extractDeployedAddress at h
    cases hs : scanForAddress output.toList with
    | none => rw [hs] at h; simp at h
    | some cs =>
      rw [hs] at h
      simp at h
      have := scanForAddress_slice output.toList cs hs
      rw [← h]
      exact this
  · intro lines addr hall
    have hany : (lines.any fun l => containsSub contractAddressMarker l) = false := by
      rw [List.any_eq_false]
      intro x hx
      have := List.all_eq_true.mp hall x hx
      simp at this
      simp [this]
    unfold updateEnvWithAddress
    rw [hany]
    simp
  · intro lines addr hany
    unfold updateEnvWithAddress
    rw [hany]
    simp
  · intro old addr
    unfold updateEnvLine
    exact replaceFromMarker_of_prefix _ _ _
      ((isPrefixOf_eq_true_iff _ _).mpr (List.prefix_append _ _))
  · intro l addr h
    exact replaceFromMarker_of_not_contains l _ h

/-- Witness for the deploy address handling: the specification example output
with a mixed-case address, an environment without the marker (append), and an
environment with the empty assignment (in-place replacement). -/
theorem deploy_address_extraction_witness :
    extractDeployedAddress
        "RootstockGreeter deployed to: 0xAbCdEf0123456789aBcDeF0123456789AbCdEf01" =
      some "0xAbCdEf0123456789aBcDeF0123456789AbCdEf01" ∧
    updateEnvWithAddress ["PRIVATE_KEY=secret".toList]
        "0xAbCdEf0123456789aBcDeF0123456789AbCdEf01" =
      ["PRIVATE_KEY=secret".toList,
       "VITE_CONTRACT_ADDRESS=0xAbCdEf0123456789aBcDeF0123456789AbCdEf01".toList] ∧
    updateEnvWithAddress ["VITE_CONTRACT_ADDRESS=".toList]
        "0xAbCdEf0123456789aBcDeF0123456789AbCdEf01" =
      ["VITE_CONTRACT_ADDRESS=0xAbCdEf0123456789aBcDeF0123456789AbCdEf01".toList] := by
  refine ⟨deploy_address_extraction_and_persistence.1, ?_, ?_⟩
  · rw [deploy_address_extraction_and_persistence.2.2.1 ["PRIVATE_KEY=secret".toList]
      "0xAbCdEf0123456789aBcDeF0123456789AbCdEf01" (by decide)]
    decide
  · rw [deploy_address_extraction_and_persistence.2.2.2.1 ["VITE_CONTRACT_ADDRESS=".toList]
      "0xAbCdEf0123456789aBcDeF0123456789AbCdEf01" (by decide)]
    decide

end RskDappCli
